import Mathlib

/-!
Shallow embedding of the irctk bot core (src/irctk/bot.py): the dispatcher
loop `Bot._parse_input`, the outbound helper `Bot.reply` with its recursive
splitter `handle_long_message`, the registration decorator `Bot.command`,
and the singleton `Bot.__new__`. Python strings are modelled as `List Char`,
dictionary keys that may be absent as `Option`, and unbounded loops as
fuel-indexed recursions whose fuel-irrelevance is proved where a claim
needs it.
-/

set_option maxRecDepth 40000

deriving instance DecidableEq for Except

namespace Irctk

/-- Boolean test that the first list starts with the second; models Python
`str.startswith` on strings represented as lists of characters. -/
def pyStartsWith : List Char → List Char → Bool
  | _, [] => true
  | [], _ :: _ => false
  | c :: s, d :: t => c == d && pyStartsWith s t

/-- Boolean substring test: `hasSub hay needle` models the Python expression
`needle in hay` on strings. -/
def hasSub : List Char → List Char → Bool
  | [], needle => needle.isEmpty
  | c :: rest, needle => pyStartsWith (c :: rest) needle || hasSub rest needle

/-- Models Python `str.isupper` at the ASCII level used by IRC verbs: true
when the string has at least one cased (alphabetic) character and no
lowercase character. -/
def pyIsUpper (s : List Char) : Bool :=
  s.any (fun c => c.isAlpha) && s.all (fun c => !c.isLower)

/-- Models the Python slice `s[:k]` for an arbitrary integer bound `k`
(a negative bound counts from the end, clamped at zero). -/
def pySliceTo (k : Int) (s : List Char) : List Char :=
  if 0 ≤ k then s.take k.toNat else s.take ((s.length : Int) + k).toNat

/-- Models the Python slice `s[k:]` for an arbitrary integer bound `k`. -/
def pySliceFrom (k : Int) (s : List Char) : List Char :=
  if 0 ≤ k then s.drop k.toNat else s.drop ((s.length : Int) + k).toNat

/-- Ceiling division on naturals, used to state chunk counts. -/
def natCeilDiv (a b : Nat) : Nat := (a + b - 1) / b

/-- The shared IRC context dictionary written by `IrcWrapper` and read by
`Bot._parse_input` (src/irctk/bot.py). Each field models one key of the
Python dict `self.irc.context`; a `none` value models an absent key. -/
structure IrcContext where
  sender : Option (List Char) := none
  user : Option (List Char) := none
  command : Option (List Char) := none
  args : Option (List (List Char)) := none
  message : Option (List Char) := none
  stale : Option Bool := none
deriving DecidableEq

/-- Models the property `Bot.context_stale` (src/irctk/bot.py lines
108-110): `self.irc.context.get('stale', True)` — a missing key reads as
`True`. -/
def context_stale (c : IrcContext) : Bool := c.stale.getD true

/-- Python truthiness of the local `args = context.get('args')`: an absent
key or an empty list is falsy. -/
def truthyArgs : Option (List (List Char)) → Bool
  | none => false
  | some l => !l.isEmpty

/-- A plugin or event descriptor dict held in `config['PLUGINS']` or
`config['EVENTS']`: the `hook`, the bound functions (modelled by their
names), extra options, and the `context` key that `Bot._parse_input`
assigns before each enqueue. -/
structure Descriptor where
  hook : List Char
  funcs : List (List Char)
  options : List (List Char × List Char) := []
  context : Option IrcContext := none
deriving DecidableEq

/-- Which branch of `Bot._parse_input` produced an enqueue call. -/
inductive OfferKind
  | plugin
  | event
deriving DecidableEq

/-- One call to `self.plugin.enqueue_plugin(descriptor, hook, arg)` made by
`Bot._parse_input`: the descriptor (carrying its context snapshot), the
hook string passed, and the string the hook is compared against (the
message for plugins, the command for events). -/
structure Offer where
  kind : OfferKind
  descriptor : Descriptor
  hook : List Char
  arg : List Char
deriving DecidableEq

/-- The state visible to one `Bot._parse_input` cycle: the command prefix
`config['CMD_PREFIX']` (field `cmdPre`), the two registries
`config['PLUGINS']` and `config['EVENTS']`, and the live context
`self.irc.context`. -/
structure BotState where
  cmdPre : List Char
  plugins : List Descriptor
  events : List Descriptor
  context : IrcContext
deriving DecidableEq

/-- A Python exception escaping the dispatcher body: `message.startswith`
raises `AttributeError` when the context has no message (the local
`message` is `None`). -/
inductive PyError
  | attributeError
deriving DecidableEq

/-- Assigning `d['context'] = dict(self.irc.context)` to every descriptor
of a registry list, as the loops at lines 93-94 and 100-101 of
src/irctk/bot.py do; `dict(...)` is modelled at value level here (see
`dict_copy` for the reference-level model of the same expression). -/
def setContexts (ds : List Descriptor) (c : IrcContext) : List Descriptor :=
  ds.map fun d => { d with context := some c }

/-- Lines 92-96 of src/irctk/bot.py: when the message starts with the
command prefix, every plugin descriptor receives the context snapshot and
is offered to `enqueue_plugin` with hook `prefix + plugin['hook']` and the
message. Returns the updated registry list and the offers, in list order. -/
def plugPart (st : BotState) (m : List Char) : List Descriptor × List Offer :=
  if pyStartsWith m st.cmdPre then
    (setContexts st.plugins st.context,
     (setContexts st.plugins st.context).map fun d =>
       { kind := OfferKind.plugin, descriptor := d, hook := st.cmdPre ++ d.hook, arg := m })
  else (st.plugins, [])

/-- Lines 99-103 of src/irctk/bot.py: when the local `command` is truthy
and `command.isupper()` holds, every event descriptor receives the context
snapshot and is offered with its own hook and the command. -/
def evPart (st : BotState) : Option (List Char) → List Descriptor × List Offer
  | some c =>
    if !c.isEmpty && pyIsUpper c then
      (setContexts st.events st.context,
       (setContexts st.events st.context).map fun d =>
         { kind := OfferKind.event, descriptor := d, hook := d.hook, arg := c })
    else (st.events, [])
  | none => (st.events, [])

/-- The bot state after one body run of the inner while loop (lines 90-106
of src/irctk/bot.py): registries updated with context snapshots and
`self.irc.context['stale'] = True`. -/
def bodyState (st : BotState) (command : Option (List Char)) (m : List Char) : BotState :=
  { st with
      plugins := (plugPart st m).1
      events := (evPart st command).1
      context := { st.context with stale := some true } }

/-- All enqueue calls of one body run: plugin offers first (lines 92-96),
then event offers (lines 99-103), in that order. -/
def bodyOffers (st : BotState) (command : Option (List Char)) (m : List Char) : List Offer :=
  (plugPart st m).2 ++ (evPart st command).2

/-- One execution of the loop body, lines 92-106 of src/irctk/bot.py, given
the local variables `command` and `message` read at lines 86-88;
`message.startswith` raises when the message is absent. -/
def parseBody (st : BotState) (command : Option (List Char)) :
    Option (List Char) → Except PyError (BotState × List Offer)
  | none => Except.error PyError.attributeError
  | some m => Except.ok (bodyState st command m, bodyOffers st command m)

/-- The inner `while not self.context_stale and args:` loop of
`Bot._parse_input` (lines 90-106), fuel-indexed: `none` means the fuel ran
out before the loop exited. The locals `args`, `command` and `message`
were read once at lines 86-88 and are not re-read; `context_stale` is
re-read from the live context on every test. The accumulator collects the
enqueue calls in order. -/
def parseLoop (args : Option (List (List Char))) (command message : Option (List Char)) :
    Nat → BotState → List Offer → Option (Except PyError (BotState × List Offer))
  | 0, _, _ => none
  | fuel + 1, st, acc =>
    if !context_stale st.context && truthyArgs args then
      match parseBody st command message with
      | Except.error e => some (Except.error e)
      | Except.ok r => parseLoop args command message fuel r.1 (acc ++ r.2)
    else some (Except.ok (st, acc))

/-- One cycle of the outer `while True:` loop of `Bot._parse_input`
(lines 82-106): read the locals from the live context, then run the inner
loop to completion. Fuel 2 is exact: a fresh context is consumed by one
body run, which sets `stale`, so the second test exits; the
fuel-irrelevance conjunct of `cycle_marks_stale` proves that more fuel
changes nothing. -/
def dispatcherCycle (st : BotState) : Option (Except PyError (BotState × List Offer)) :=
  parseLoop st.context.args st.context.command st.context.message 2 st []

/-- Modelled from the spec: the matching test of
`PluginHandler.enqueue_plugin` — src/irctk/plugins.py is not part of the
repository snapshot, only its call sites in src/irctk/bot.py are. Per spec
section 4.2 step 3a, a descriptor matches when the hook it was offered
with is found within the string it is compared against. -/
def enqueue_plugin (hook arg : List Char) : Bool := hasSub arg hook

/-- The offers of a dispatcher cycle that the (spec-modelled)
`enqueue_plugin` admits to the worker queue. -/
def enqueuedOffers (offers : List Offer) : List Offer :=
  offers.filter fun o => enqueue_plugin o.hook o.arg

/-- The two context keys `Bot.reply` reads (src/irctk/bot.py lines
175-181). -/
structure ReplyCtx where
  sender : List Char
  user : List Char
deriving DecidableEq

/-- Lines 177-180 of src/irctk/bot.py: the recipient is the sender when it
names a channel (starts with the channel-prefix character), else the
originating user. -/
def recipient (context : ReplyCtx) : List Char :=
  if pyStartsWith context.sender ['#'] then context.sender else context.user

/-- The recursive helper `handle_long_message` inside `Bot.reply`
(lines 184-188), fuel-indexed; `none` means the recursion did not
terminate within the given fuel. Each step appends `message[:line_limit]`
and recurses on `message[line_limit:]` when that remainder is truthy. -/
def handle_long_message (lineLimit : Int) : Nat → List Char → Option (List (List Char))
  | 0, _ => none
  | fuel + 1, message =>
    if pySliceFrom lineLimit message = [] then
      some [pySliceTo lineLimit message]
    else
      match handle_long_message lineLimit fuel (pySliceFrom lineLimit message) with
      | none => none
      | some rest => some (pySliceTo lineLimit message :: rest)

/-- Runs `handle_long_message` with enough fuel for any terminating run
(one unit per character plus one). -/
def handleLongMessageRun (lineLimit : Int) (message : List Char) : Option (List (List Char)) :=
  handle_long_message lineLimit (message.length + 1) message

/-- Models `Bot.reply` (lines 175-193): choose the recipient, split the
message, and issue `send_message(recipient, chunk, action, notice)` for
each chunk in order. The result is the ordered list of send calls, `none`
when the splitting helper diverges. The default line limit in the source
is 400. -/
def reply (message : List Char) (context : ReplyCtx) (action notice : Bool)
    (lineLimit : Int) : Option (List (List Char × List Char × Bool × Bool)) :=
  (handleLongMessageRun lineLimit message).map fun msgs =>
    msgs.map fun m => (recipient context, m, action, notice)

/-- The plugin dict built by `Bot.command` (lines 127-141): optional `hook`
key, `funcs` key, and the remaining keyword options. Functions are
modelled by their name (`func.func_name`). -/
structure PluginBuild where
  hook : Option (List Char) := none
  funcs : List (List Char) := []
  options : List (List Char × List Char) := []
deriving DecidableEq

/-- The inner `wrapper` of `Bot.command` (lines 129-133):
`plugin.setdefault('hook', func.func_name)` then
`plugin['funcs'] = [func]`; registration via `update_plugins` stores
exactly this dict. -/
def wrapper (p : PluginBuild) (funcName : List Char) : PluginBuild :=
  { p with hook := some (p.hook.getD funcName), funcs := [funcName] }

/-- The plugin dict as initialized by lines 135-138 before `wrapper` runs:
`if hook: plugin['hook'] = hook` — the hook key is set only when the
argument is truthy (a non-empty string); the keyword options are merged by
`plugin.update(kwargs)`. -/
def hookInit : Option (List Char) → PluginBuild
  | some h => if h = [] then {} else { hook := some h }
  | none => {}

/-- Models `Bot.command` used with parentheses — `bot.command(hookArg,
**kwargs)` applied as a decorator to a function: lines 135-139 build the
initial plugin dict and return `wrapper`, here applied to the decorated
function. -/
def commandDecorator (hookArg : Option (List Char))
    (kwargs : List (List Char × List Char)) (funcName : List Char) : PluginBuild :=
  wrapper { hookInit hookArg with options := (hookInit hookArg).options ++ kwargs } funcName

/-- Models `Bot.command` used bare — `@bot.command` passes the decorated
function itself as `hook`: line 141 applies `wrapper` directly to it with
the empty plugin dict. -/
def commandDirect (funcName : List Char) : PluginBuild :=
  wrapper {} funcName

/-- The class-level state behind `Bot.__new__` (lines 43-50): the
`_instance` class attribute, plus an allocation counter so that distinct
objects receive distinct identities. -/
structure BotClass where
  instanceSlot : Option Nat := none
  nextId : Nat := 0
deriving DecidableEq

/-- Models `Bot.__new__(cls, *args, **kwargs)`: when `_instance` is unset,
allocate a fresh object and store it; otherwise return the stored
instance. The constructor arguments are ignored for identity. Returns the
identity of the returned object and the updated class state. -/
def botNew (s : BotClass) (_args : List (List Char)) : Nat × BotClass :=
  match s.instanceSlot with
  | some i => (i, s)
  | none => (s.nextId, { instanceSlot := some s.nextId, nextId := s.nextId + 1 })

/-- Identities returned by a sequence of `Bot(...)` constructions threaded
through the class state. -/
def botNewRuns (s : BotClass) : List (List (List Char)) → List Nat
  | [] => []
  | a :: rest => (botNew s a).1 :: botNewRuns (botNew s a).2 rest

/-- A context dict at reference level: string-valued entries are immutable
values, while the `args` entry holds a reference into the list heap
(Python lists are mutable objects shared by reference, and `dict(...)`
copies the reference, not the list). -/
structure RefContext where
  sender : Option (List Char) := none
  user : Option (List Char) := none
  command : Option (List Char) := none
  message : Option (List Char) := none
  argsRef : Option Nat := none
  stale : Option Bool := none
deriving DecidableEq

/-- Models `dict(self.irc.context)` (lines 94 and 101): a shallow copy
that duplicates every key-to-value binding; the `args` binding still holds
the same list reference. -/
def dict_copy (c : RefContext) : RefContext := c

/-- The mutable state at reference level: the heap of list objects that
`args` references point into, the live context, and the snapshots already
handed out. -/
structure World where
  heap : List (List (List Char))
  live : RefContext
  snapshots : List RefContext
deriving DecidableEq

/-- Taking the snapshot handed to `enqueue_plugin`:
`plugin['context'] = dict(self.irc.context)`. -/
def enqueue_snapshot (w : World) : World :=
  { w with snapshots := w.snapshots ++ [dict_copy w.live] }

/-- A later item assignment on the live context dict (for example
`self.irc.context['stale'] = True`, or the reader thread rebinding
entries): only the live dict's own bindings change. -/
def assign_item (w : World) (f : RefContext → RefContext) : World :=
  { w with live := f w.live }

/-- An in-place mutation of the list object stored at heap slot `r` (for
example an `append` on the list the live context's `args` entry points
to). -/
def mutate_args (w : World) (r : Nat) (v : List (List Char)) : World :=
  { w with heap := w.heap.set r v }

/-- The args sequence a holder of context `c` observes in world `w`. -/
def viewArgs (w : World) (c : RefContext) : Option (List (List Char)) :=
  c.argsRef.map fun r => w.heap.getD r []

/-- Every field of context `c` as observed in world `w` — what a handler
sees when it dereferences its snapshot. -/
def ctxView (w : World) (c : RefContext) :
    Option (List Char) × Option (List Char) × Option (List Char) ×
      Option (List Char) × Option (List (List Char)) × Option Bool :=
  (c.sender, c.user, c.command, c.message, viewArgs w c, c.stale)

/-- A fresh sample context: a user typed `.hi` in channel `#c`, carried by
a PRIVMSG line. -/
def ctxFresh : IrcContext :=
  { sender := some ['#', 'c'], user := some ['u'],
    command := some ['P', 'R', 'I', 'V', 'M', 'S', 'G'],
    args := some [['#', 'c']], message := some ['.', 'h', 'i'],
    stale := some false }

/-- A sample bot state with one registered plugin (hook `hi`) and one
registered event (hook `PRIVMSG`), command prefix `.` and a fresh
context. -/
def stSample : BotState :=
  { cmdPre := ['.'],
    plugins := [{ hook := ['h', 'i'], funcs := [['f']] }],
    events := [{ hook := ['P', 'R', 'I', 'V', 'M', 'S', 'G'], funcs := [['g']] }],
    context := ctxFresh }

/-- The entirely empty context: every key absent. -/
def ctxEmpty : IrcContext := {}

/-- A bot state holding the empty context. -/
def stEmpty : BotState :=
  { cmdPre := ['.'], plugins := [], events := [], context := ctxEmpty }

/-- A sample reference-level world: the live context's `args` entry points
at heap slot 0. -/
def w0 : World :=
  { heap := [[['#', 'c'], ['h', 'i']]],
    live := { sender := some ['#', 'c'], user := some ['u'],
              command := some ['P', 'R', 'I', 'V', 'M', 'S', 'G'],
              message := some ['.', 'h', 'i'], argsRef := some 0,
              stale := some false },
    snapshots := [] }

/-- A sample reply context addressed to a channel. -/
def replyCtxSample : ReplyCtx := { sender := ['#', 'c'], user := ['u'] }


theorem natCeilDiv_zero (t : Nat) (ht : 1 ≤ t) : natCeilDiv 0 t = 0 := by
  unfold natCeilDiv
  exact Nat.div_eq_of_lt (by omega)

theorem natCeilDiv_le_one (a t : Nat) (ha : a ≤ t) (ht : 1 ≤ t) : natCeilDiv a t ≤ 1 := by
  unfold natCeilDiv
  have := (Nat.div_lt_iff_lt_mul (by omega : 0 < t)).mpr (by omega : a + t - 1 < 2 * t)
  omega

theorem natCeilDiv_pos (a t : Nat) (ha : 1 ≤ a) (ht : 1 ≤ t) : 1 ≤ natCeilDiv a t := by
  unfold natCeilDiv
  exact (Nat.one_le_div_iff (by omega)).mpr (by omega)

theorem natCeilDiv_rec (a t : Nat) (h : t < a) (ht : 1 ≤ t) :
    natCeilDiv a t = natCeilDiv (a - t) t + 1 := by
  unfold natCeilDiv
  have h1 : a + t - 1 = (a - t + t - 1) + t := by omega
  rw [h1, Nat.add_div_right _ (by omega)]

theorem pySliceTo_of_nonneg (k : Int) (s : List Char) (h : 0 ≤ k) :
    pySliceTo k s = s.take k.toNat := by
  simp [pySliceTo, h]

theorem pySliceFrom_of_nonneg (k : Int) (s : List Char) (h : 0 ≤ k) :
    pySliceFrom k s = s.drop k.toNat := by
  simp [pySliceFrom, h]

/-- Specification of `handle_long_message` for a positive line limit: given
enough fuel it terminates and returns chunks that concatenate back to the
message, each chunk no longer than the limit, and the chunk count is
`max 1 (ceil (length / limit))`. -/
theorem hlm_spec (l : Int) (hl : 1 ≤ l) :
    ∀ (n : Nat) (msg : List Char), msg.length ≤ n → ∀ fuel, msg.length < fuel →
    ∃ chunks, handle_long_message l fuel msg = some chunks ∧
      chunks.flatten = msg ∧
      (∀ c ∈ chunks, c.length ≤ l.toNat) ∧
      chunks.length = max 1 (natCeilDiv msg.length l.toNat) := by
  have ht : 1 ≤ l.toNat := by omega
  intro n
  induction n with
  | zero =>
    intro msg hlen fuel hfuel
    have hm : msg = [] := List.length_eq_zero.mp (by omega)
    subst hm
    obtain ⟨f, rfl⟩ : ∃ f, fuel = f + 1 := ⟨fuel - 1, by omega⟩
    refine ⟨[[]], ?_, by simp, by simp, ?_⟩
    · simp [handle_long_message, pySliceTo, pySliceFrom]
    · have := natCeilDiv_zero l.toNat ht
      simp only [List.length_singleton, List.length_nil, this]
      omega
  | succ n ih =>
    intro msg hlen fuel hfuel
    obtain ⟨f, rfl⟩ : ∃ f, fuel = f + 1 := ⟨fuel - 1, by omega⟩
    have hTo : pySliceTo l msg = msg.take l.toNat := pySliceTo_of_nonneg l msg (by omega)
    have hFrom : pySliceFrom l msg = msg.drop l.toNat := pySliceFrom_of_nonneg l msg (by omega)
    by_cases hx : msg.drop l.toNat = []
    · have hle : msg.length ≤ l.toNat := by
        have hld := List.length_drop l.toNat msg
        rw [hx] at hld
        simp at hld
        omega
      have htake : msg.take l.toNat = msg := List.take_of_length_le hle
      refine ⟨[msg], ?_, by simp, by simp [hle], ?_⟩
      · simp [handle_long_message, hTo, hFrom, hx, htake]
      · have h1 := natCeilDiv_le_one msg.length l.toNat hle ht
        simp only [List.length_singleton]
        omega
    · have hld := List.length_drop l.toNat msg
      have hne : (msg.drop l.toNat).length ≠ 0 := fun hz => hx (List.length_eq_zero.mp hz)
      have hgt : l.toNat < msg.length := by omega
      obtain ⟨rest, hrest, hflat, hbound, hcount⟩ :=
        ih (msg.drop l.toNat) (by omega) f (by omega)
      refine ⟨msg.take l.toNat :: rest, ?_, ?_, ?_, ?_⟩
      · rw [show handle_long_message l (f + 1) msg =
            if pySliceFrom l msg = [] then some [pySliceTo l msg]
            else match handle_long_message l f (pySliceFrom l msg) with
              | none => none
              | some rest => some (pySliceTo l msg :: rest) from rfl]
        rw [hTo, hFrom, if_neg hx, hrest]
      · simp [hflat, List.take_append_drop]
      · intro c hc
        rcases List.mem_cons.mp hc with hceq | hcm
        · subst hceq
          simp [List.length_take]
        · exact hbound c hcm
      · have hrec := natCeilDiv_rec msg.length l.toNat hgt ht
        have hpos := natCeilDiv_pos (msg.length - l.toNat) l.toNat (by omega) ht
        simp only [List.length_cons, hcount, hld]
        omega

/-- With a non-positive line limit and a non-empty message,
`handle_long_message` exhausts any amount of fuel: the recursion never
terminates. -/
theorem hlm_nonpos (l : Int) (hl : l ≤ 0) :
    ∀ (fuel : Nat) (msg : List Char), msg ≠ [] → handle_long_message l fuel msg = none := by
  intro fuel
  induction fuel with
  | zero => intro msg _; rfl
  | succ f ih =>
    intro msg hmsg
    have hlen : 1 ≤ msg.length := by
      have : msg.length ≠ 0 := fun hz => hmsg (List.length_eq_zero.mp hz)
      omega
    have hx : pySliceFrom l msg ≠ [] := by
      unfold pySliceFrom
      rcases lt_or_le l 0 with hneg | hz
      · rw [if_neg (by omega)]
        intro hcon
        have h1 : ((msg.length : Int) + l).toNat < msg.length := by omega
        have hld := List.length_drop ((msg.length : Int) + l).toNat msg
        rw [hcon] at hld
        simp at hld
        omega
      · have hz0 : l = 0 := by omega
        subst hz0
        simpa using hmsg
    rw [show handle_long_message l (f + 1) msg =
        if pySliceFrom l msg = [] then some [pySliceTo l msg]
        else match handle_long_message l f (pySliceFrom l msg) with
          | none => none
          | some rest => some (pySliceTo l msg :: rest) from rfl]
    rw [if_neg hx, ih (pySliceFrom l msg) hx]


/-! Dispatcher-loop helpers. -/

theorem bodyState_stale (st : BotState) (command : Option (List Char)) (m : List Char) :
    context_stale (bodyState st command m).context = true := rfl

theorem bodyState_reads (st : BotState) (command : Option (List Char)) (m : List Char) :
    (bodyState st command m).context.args = st.context.args ∧
    (bodyState st command m).context.command = st.context.command ∧
    (bodyState st command m).context.message = st.context.message := ⟨rfl, rfl, rfl⟩

theorem parseLoop_stop (args : Option (List (List Char))) (command message : Option (List Char))
    (fuel : Nat) (st : BotState) (acc : List Offer)
    (h : (!context_stale st.context && truthyArgs args) = false) :
    parseLoop args command message (fuel + 1) st acc = some (Except.ok (st, acc)) := by
  simp [parseLoop, h]

theorem parseLoop_run (args : Option (List (List Char))) (command : Option (List Char))
    (m : List Char) (fuel : Nat) (st : BotState) (acc : List Offer)
    (h : (!context_stale st.context && truthyArgs args) = true) :
    parseLoop args command (some m) (fuel + 2) st acc =
      some (Except.ok (bodyState st command m, acc ++ bodyOffers st command m)) := by
  have h2 : (!context_stale (bodyState st command m).context && truthyArgs args) = false := by
    rw [bodyState_stale]
    rfl
  show parseLoop args command (some m) (fuel + 1 + 1) st acc = _
  rw [parseLoop, if_pos h]
  show (match parseBody st command (some m) with
    | Except.error e => some (Except.error e)
    | Except.ok r => parseLoop args command (some m) (fuel + 1) r.1 (acc ++ r.2)) = _
  rw [show parseBody st command (some m) =
    Except.ok (bodyState st command m, bodyOffers st command m) from rfl]
  exact parseLoop_stop args command (some m) fuel _ _ h2

theorem parseLoop_error (args : Option (List (List Char))) (command : Option (List Char))
    (fuel : Nat) (st : BotState) (acc : List Offer)
    (h : (!context_stale st.context && truthyArgs args) = true) :
    parseLoop args command none (fuel + 1) st acc = some (Except.error PyError.attributeError) := by
  rw [parseLoop, if_pos h]
  rfl

theorem plugPart_kinds (st : BotState) (m : List Char) :
    ∀ o ∈ (plugPart st m).2, o.kind = OfferKind.plugin := by
  intro o ho
  unfold plugPart at ho
  by_cases hs : pyStartsWith m st.cmdPre
  · rw [if_pos hs] at ho
    simp only [List.mem_map] at ho
    obtain ⟨d, _, rfl⟩ := ho
    rfl
  · rw [if_neg hs] at ho
    simp at ho

theorem evPart_kinds (st : BotState) (command : Option (List Char)) :
    ∀ o ∈ (evPart st command).2, o.kind = OfferKind.event := by
  intro o ho
  cases command with
  | none => simp [evPart] at ho
  | some c =>
    by_cases hc : (!c.isEmpty && pyIsUpper c : Bool)
    · rw [evPart, if_pos hc] at ho
      simp only [List.mem_map] at ho
      obtain ⟨d, _, rfl⟩ := ho
      rfl
    · rw [evPart, if_neg hc] at ho
      simp at ho

theorem plugPart_snapshot (st : BotState) (m : List Char) :
    ∀ o ∈ (plugPart st m).2, o.descriptor.context = some st.context := by
  intro o ho
  unfold plugPart at ho
  by_cases hs : pyStartsWith m st.cmdPre
  · rw [if_pos hs] at ho
    simp only [List.mem_map, setContexts] at ho
    obtain ⟨d, ⟨d0, _, rfl⟩, rfl⟩ := ho
    rfl
  · rw [if_neg hs] at ho
    simp at ho

theorem evPart_snapshot (st : BotState) (command : Option (List Char)) :
    ∀ o ∈ (evPart st command).2, o.descriptor.context = some st.context := by
  intro o ho
  cases command with
  | none => simp [evPart] at ho
  | some c =>
    by_cases hc : (!c.isEmpty && pyIsUpper c : Bool)
    · rw [evPart, if_pos hc] at ho
      simp only [List.mem_map, setContexts] at ho
      obtain ⟨d, ⟨d0, _, rfl⟩, rfl⟩ := ho
      rfl
    · rw [evPart, if_neg hc] at ho
      simp at ho

theorem bodyOffers_snapshot (st : BotState) (command : Option (List Char)) (m : List Char) :
    ∀ o ∈ bodyOffers st command m, o.descriptor.context = some st.context := by
  intro o ho
  rcases List.mem_append.mp ho with h | h
  · exact plugPart_snapshot st m o h
  · exact evPart_snapshot st command o h

theorem pyIsUpper_nil : pyIsUpper [] = false := rfl

theorem evPart_of_upper (st : BotState) (c : List Char) (hu : pyIsUpper c = true) :
    (evPart st (some c)).2 = (setContexts st.events st.context).map fun d =>
      { kind := OfferKind.event, descriptor := d, hook := d.hook, arg := c } := by
  have hne : c ≠ [] := by
    intro hnil
    rw [hnil, pyIsUpper_nil] at hu
    exact Bool.false_ne_true hu
  have hcond : (!c.isEmpty && pyIsUpper c) = true := by
    cases c with
    | nil => exact absurd rfl hne
    | cons a t => simpa using hu
  rw [evPart, if_pos hcond]

theorem evPart_of_not_upper (st : BotState) (c : List Char) (hu : pyIsUpper c = false) :
    (evPart st (some c)).2 = [] := by
  have hcond : (!c.isEmpty && pyIsUpper c) = false := by
    rw [hu]
    exact Bool.and_false _
  rw [evPart, if_neg (by simp [hcond])]


/-! Shared helpers for stating dispatcher-cycle results. -/

theorem freshCond (st : BotState) (hstale : context_stale st.context = false)
    (hargs : truthyArgs st.context.args = true) :
    (!context_stale st.context && truthyArgs st.context.args) = true := by
  rw [hstale, hargs]
  rfl

theorem dispatcherCycle_fresh (st : BotState) (m : List Char)
    (hcond : (!context_stale st.context && truthyArgs st.context.args) = true)
    (hmsg : st.context.message = some m) :
    dispatcherCycle st =
      some (Except.ok (bodyState st st.context.command m, bodyOffers st st.context.command m)) := by
  unfold dispatcherCycle
  rw [hmsg]
  have h := parseLoop_run st.context.args st.context.command m 0 st [] hcond
  simpa using h

theorem botNewRuns_const (argss : List (List (List Char))) :
    ∀ (s : BotClass) (i : Nat), s.instanceSlot = some i →
    botNewRuns s argss = List.replicate argss.length i := by
  induction argss with
  | nil => intro s i h; rfl
  | cons a rest ih =>
    intro s i h
    have hb : botNew s a = (i, s) := by
      unfold botNew
      rw [h]
    show (botNew s a).1 :: botNewRuns (botNew s a).2 rest = _
    rw [hb]
    rw [ih s i h]
    simp [List.length_cons, List.replicate_succ]

/-- Claim C1: for every context whose stale flag is false and whose args
field is non-empty (with the message key present, as the Context data
model of the spec guarantees for every parsed line), one Dispatcher cycle
sets the context's stale flag to true; the matching/enqueue body runs
exactly once — the same result is obtained with any larger fuel for the
inner loop — and the now-stale context is never matched again: a further
cycle enqueues nothing and leaves the state unchanged. -/
theorem cycle_marks_stale (st : BotState) (m : List Char)
    (hstale : context_stale st.context = false)
    (hargs : truthyArgs st.context.args = true)
    (hmsg : st.context.message = some m) :
    dispatcherCycle st =
      some (Except.ok (bodyState st st.context.command m, bodyOffers st st.context.command m)) ∧
    (bodyState st st.context.command m).context.stale = some true ∧
    parseBody st st.context.command (some m) =
      Except.ok (bodyState st st.context.command m, bodyOffers st st.context.command m) ∧
    (∀ fuel, parseLoop st.context.args st.context.command st.context.message (fuel + 2) st [] =
      some (Except.ok (bodyState st st.context.command m, bodyOffers st st.context.command m))) ∧
    dispatcherCycle (bodyState st st.context.command m) =
      some (Except.ok (bodyState st st.context.command m, [])) := by
  have hcond := freshCond st hstale hargs
  refine ⟨dispatcherCycle_fresh st m hcond hmsg, rfl, rfl, ?_, ?_⟩
  · intro fuel
    rw [hmsg]
    have h := parseLoop_run st.context.args st.context.command m fuel st [] hcond
    simpa using h
  · show parseLoop _ _ _ (1 + 1) _ [] = _
    exact parseLoop_stop _ _ _ 1 _ [] (by rw [bodyState_stale]; rfl)

/-- Witness for `cycle_marks_stale` at the sample fresh state. -/
theorem cycle_marks_stale_witness :
    dispatcherCycle stSample =
      some (Except.ok (bodyState stSample stSample.context.command ['.', 'h', 'i'],
        bodyOffers stSample stSample.context.command ['.', 'h', 'i'])) ∧
    (bodyState stSample stSample.context.command ['.', 'h', 'i']).context.stale = some true ∧
    parseBody stSample stSample.context.command (some ['.', 'h', 'i']) =
      Except.ok (bodyState stSample stSample.context.command ['.', 'h', 'i'],
        bodyOffers stSample stSample.context.command ['.', 'h', 'i']) ∧
    (∀ fuel, parseLoop stSample.context.args stSample.context.command stSample.context.message
        (fuel + 2) stSample [] =
      some (Except.ok (bodyState stSample stSample.context.command ['.', 'h', 'i'],
        bodyOffers stSample stSample.context.command ['.', 'h', 'i']))) ∧
    dispatcherCycle (bodyState stSample stSample.context.command ['.', 'h', 'i']) =
      some (Except.ok (bodyState stSample stSample.context.command ['.', 'h', 'i'], [])) :=
  cycle_marks_stale stSample ['.', 'h', 'i'] (by decide) (by decide) (by decide)

/-- Claim C8: a stale context, or one whose args entry is absent or empty
(in particular the entirely empty context, whose missing stale key is read
as true), makes one Dispatcher cycle a no-op: no matching, no exception,
context and registries unchanged — and this holds for every amount of
inner-loop fuel, so the Dispatcher can spin over such contexts
indefinitely. -/
theorem cycle_tolerates_stale (st : BotState)
    (h : context_stale st.context = true ∨ truthyArgs st.context.args = false) :
    dispatcherCycle st = some (Except.ok (st, [])) ∧
    (∀ fuel, parseLoop st.context.args st.context.command st.context.message (fuel + 1) st [] =
      some (Except.ok (st, []))) ∧
    context_stale ctxEmpty = true := by
  have hcond : (!context_stale st.context && truthyArgs st.context.args) = false := by
    rcases h with h | h
    · rw [h]
      rfl
    · rw [h]
      exact Bool.and_false _
  refine ⟨?_, fun fuel => parseLoop_stop _ _ _ fuel st [] hcond, by decide⟩
  show parseLoop _ _ _ (1 + 1) st [] = _
  exact parseLoop_stop _ _ _ 1 st [] hcond

/-- Witness for `cycle_tolerates_stale` at the empty context. -/
theorem cycle_tolerates_stale_witness :
    dispatcherCycle stEmpty = some (Except.ok (stEmpty, [])) ∧
    (∀ fuel, parseLoop stEmpty.context.args stEmpty.context.command stEmpty.context.message
        (fuel + 1) stEmpty [] = some (Except.ok (stEmpty, []))) ∧
    context_stale ctxEmpty = true :=
  cycle_tolerates_stale stEmpty (Or.inl (by decide))

/-- Claim C4: in the cycle that consumes a fresh context, the enqueued
offers are the plugin offers followed by the event part, and the event
part is characterized exactly by the upper-case test on the command: when
the command is present and fully upper-case, every registered event
descriptor is offered (with its hook, compared against that command); when
the command is absent or not fully upper-case, no event descriptor is
offered. -/
theorem cycle_event_branch (st : BotState) (m : List Char)
    (hstale : context_stale st.context = false)
    (hargs : truthyArgs st.context.args = true)
    (hmsg : st.context.message = some m) :
    dispatcherCycle st =
      some (Except.ok (bodyState st st.context.command m,
        (plugPart st m).2 ++ (evPart st st.context.command).2)) ∧
    (∀ o ∈ (plugPart st m).2, o.kind = OfferKind.plugin) ∧
    (∀ c, st.context.command = some c → pyIsUpper c = true →
      (evPart st st.context.command).2 =
        (setContexts st.events st.context).map fun d =>
          { kind := OfferKind.event, descriptor := d, hook := d.hook, arg := c }) ∧
    (∀ c, st.context.command = some c → pyIsUpper c = false →
      (evPart st st.context.command).2 = []) ∧
    (st.context.command = none → (evPart st st.context.command).2 = []) := by
  refine ⟨dispatcherCycle_fresh st m (freshCond st hstale hargs) hmsg,
    plugPart_kinds st m, ?_, ?_, ?_⟩
  · intro c hc hu
    rw [hc]
    exact evPart_of_upper st c hu
  · intro c hc hu
    rw [hc]
    exact evPart_of_not_upper st c hu
  · intro hc
    rw [hc]
    rfl

/-- Witness for `cycle_event_branch` at the sample fresh state. -/
theorem cycle_event_branch_witness :
    dispatcherCycle stSample =
      some (Except.ok (bodyState stSample stSample.context.command ['.', 'h', 'i'],
        (plugPart stSample ['.', 'h', 'i']).2 ++ (evPart stSample stSample.context.command).2)) ∧
    (∀ o ∈ (plugPart stSample ['.', 'h', 'i']).2, o.kind = OfferKind.plugin) ∧
    (∀ c, stSample.context.command = some c → pyIsUpper c = true →
      (evPart stSample stSample.context.command).2 =
        (setContexts stSample.events stSample.context).map fun d =>
          { kind := OfferKind.event, descriptor := d, hook := d.hook, arg := c }) ∧
    (∀ c, stSample.context.command = some c → pyIsUpper c = false →
      (evPart stSample stSample.context.command).2 = []) ∧
    (stSample.context.command = none → (evPart stSample stSample.context.command).2 = []) :=
  cycle_event_branch stSample ['.', 'h', 'i'] (by decide) (by decide) (by decide)

/-- Claim C5: within the processing of one fresh context, all plugin
offers precede all event offers in the enqueue order, and both kinds can
fire for one single context (sample: a `.hi` message carried by a PRIVMSG
line with one registered plugin and one registered event). -/
theorem cycle_plugin_before_event :
    (∀ (st : BotState) (m : List Char),
      context_stale st.context = false → truthyArgs st.context.args = true →
      st.context.message = some m →
      ∃ st2 po eo, dispatcherCycle st = some (Except.ok (st2, po ++ eo)) ∧
        (∀ o ∈ po, o.kind = OfferKind.plugin) ∧ (∀ o ∈ eo, o.kind = OfferKind.event)) ∧
    (∃ st2 po eo, dispatcherCycle stSample = some (Except.ok (st2, po ++ eo)) ∧
      po ≠ [] ∧ eo ≠ [] ∧
      (∀ o ∈ po, o.kind = OfferKind.plugin) ∧ (∀ o ∈ eo, o.kind = OfferKind.event)) := by
  constructor
  · intro st m hstale hargs hmsg
    exact ⟨bodyState st st.context.command m, (plugPart st m).2, (evPart st st.context.command).2,
      dispatcherCycle_fresh st m (freshCond st hstale hargs) hmsg,
      plugPart_kinds st m, evPart_kinds st st.context.command⟩
  · exact ⟨bodyState stSample stSample.context.command ['.', 'h', 'i'],
      (plugPart stSample ['.', 'h', 'i']).2, (evPart stSample stSample.context.command).2,
      by decide, by decide, by decide,
      plugPart_kinds stSample ['.', 'h', 'i'], evPart_kinds stSample stSample.context.command⟩

/-- Witness for `cycle_plugin_before_event` at the sample fresh state. -/
theorem cycle_plugin_before_event_witness :
    ∃ st2 po eo, dispatcherCycle stSample = some (Except.ok (st2, po ++ eo)) ∧
      (∀ o ∈ po, o.kind = OfferKind.plugin) ∧ (∀ o ∈ eo, o.kind = OfferKind.event) :=
  cycle_plugin_before_event.1 stSample ['.', 'h', 'i'] (by decide) (by decide) (by decide)

/-- Claim C3 is false as stated: `dict(self.irc.context)` is a shallow
copy, so an in-place mutation of the shared args list object is visible
through an already-taken snapshot — at the sample world, overwriting the
list at heap slot 0 changes what the snapshot of the live context
observes. -/
theorem snapshot_aliasing_cex :
    viewArgs (mutate_args w0 0 []) (dict_copy w0.live) ≠ viewArgs w0 (dict_copy w0.live) ∧
    viewArgs (mutate_args w0 0 []) (dict_copy w0.live) = some [] ∧
    viewArgs w0 (dict_copy w0.live) = some [['#', 'c'], ['h', 'i']] := by
  refine ⟨?_, by decide, by decide⟩
  intro h
  have h1 : viewArgs (mutate_args w0 0 []) (dict_copy w0.live) = some [] := by decide
  have h2 : viewArgs w0 (dict_copy w0.live) = some [['#', 'c'], ['h', 'i']] := by decide
  rw [h1, h2] at h
  simp at h

/-- Claim C3 (amended): every offer of a Dispatcher cycle that the
(spec-modelled) enqueue test admits carries the snapshot
`dict(self.irc.context)` taken at enqueue time, whose fields all equal the
live context's at that moment; any later item assignment on the live
context dict leaves every snapshot's view unchanged; but the copy is
shallow, so an in-place mutation of the shared args list object remains
visible through the snapshot. -/
theorem snapshot_shallow_copy :
    (∀ (st st2 : BotState) (offers : List Offer),
      dispatcherCycle st = some (Except.ok (st2, offers)) →
      ∀ o ∈ enqueuedOffers offers, o.descriptor.context = some st.context) ∧
    (∀ w : World, ctxView w (dict_copy w.live) = ctxView w w.live) ∧
    (∀ (w : World) (f : RefContext → RefContext) (c : RefContext),
      ctxView (assign_item w f) c = ctxView w c) ∧
    (∀ (w : World) (r : Nat) (v : List (List Char)) (c : RefContext),
      c.argsRef = some r → r < w.heap.length →
      viewArgs (mutate_args w r v) c = some v) := by
  refine ⟨?_, fun w => rfl, fun w f c => rfl, ?_⟩
  · intro st st2 offers h o ho
    by_cases hcond : (!context_stale st.context && truthyArgs st.context.args) = true
    · cases hmsg : st.context.message with
      | none =>
        exfalso
        have herr := parseLoop_error st.context.args st.context.command 1 st [] hcond
        have hdc : dispatcherCycle st = some (Except.error PyError.attributeError) := by
          unfold dispatcherCycle
          rw [hmsg]
          exact herr
        rw [hdc] at h
        simp at h
      | some m =>
        have hdc := dispatcherCycle_fresh st m hcond hmsg
        rw [hdc] at h
        simp only [Option.some.injEq, Except.ok.injEq, Prod.mk.injEq] at h
        obtain ⟨h1, h2⟩ := h
        subst h2
        exact bodyOffers_snapshot st st.context.command m o (List.mem_of_mem_filter ho)
    · have hcond2 : (!context_stale st.context && truthyArgs st.context.args) = false := by
        cases hb : (!context_stale st.context && truthyArgs st.context.args) with
        | false => rfl
        | true => exact absurd hb hcond
      have hdc : dispatcherCycle st = some (Except.ok (st, [])) := by
        show parseLoop _ _ _ (1 + 1) st [] = _
        exact parseLoop_stop _ _ _ 1 st [] hcond2
      rw [hdc] at h
      simp only [Option.some.injEq, Except.ok.injEq, Prod.mk.injEq] at h
      obtain ⟨h1, h2⟩ := h
      rw [← h2] at ho
      simp [enqueuedOffers] at ho
  · intro w r v c hc hr
    simp [viewArgs, mutate_args, hc, List.getD, List.getElem?_set_self, hr]

/-- Witness for `snapshot_shallow_copy` at the sample state and world. -/
theorem snapshot_shallow_copy_witness :
    (∀ o ∈ enqueuedOffers (bodyOffers stSample stSample.context.command ['.', 'h', 'i']),
      o.descriptor.context = some stSample.context) ∧
    ctxView w0 (dict_copy w0.live) = ctxView w0 w0.live ∧
    viewArgs (mutate_args w0 0 [['x']]) w0.live = some [['x']] :=
  ⟨snapshot_shallow_copy.1 stSample
      (bodyState stSample stSample.context.command ['.', 'h', 'i'])
      (bodyOffers stSample stSample.context.command ['.', 'h', 'i']) (by decide),
    snapshot_shallow_copy.2.1 w0,
    snapshot_shallow_copy.2.2.2 w0 0 [['x']] w0.live (by decide) (by decide)⟩

/-- Claim C2: for any positive line limit, `reply` splits the message into
chunks of length at most the limit and sends them in original text order
(their concatenation is the message); in particular a 1000-character
message with limit 400 is sent as exactly three chunks of lengths 400,
400, 200, in that order, concatenating back to the original. The source
default for the limit is 400. -/
theorem reply_chunking (l : Int) (hl : 1 ≤ l) (msg : List Char) (ctx : ReplyCtx)
    (action notice : Bool) :
    (∃ sends, reply msg ctx action notice l = some sends ∧
      (sends.map fun s => s.2.1).flatten = msg ∧
      ∀ s ∈ sends, s.2.1.length ≤ l.toNat) ∧
    (∃ sends, reply (List.replicate 1000 'A') replyCtxSample false false 400 = some sends ∧
      sends.map (fun s => s.2.1.length) = [400, 400, 200] ∧
      (sends.map fun s => s.2.1).flatten = List.replicate 1000 'A') := by
  constructor
  · obtain ⟨chunks, hrun, hflat, hbound, _⟩ :=
      hlm_spec l hl msg.length msg le_rfl (msg.length + 1) (by omega)
    refine ⟨chunks.map fun c => (recipient ctx, c, action, notice), ?_, ?_, ?_⟩
    · unfold reply handleLongMessageRun
      rw [hrun]
      rfl
    · simp only [List.map_map, Function.comp_def]
      simpa using hflat
    · intro s hs
      simp only [List.mem_map] at hs
      obtain ⟨c, hc, rfl⟩ := hs
      exact hbound c hc
  · exact ⟨[(recipient replyCtxSample, List.replicate 400 'A', false, false),
      (recipient replyCtxSample, List.replicate 400 'A', false, false),
      (recipient replyCtxSample, List.replicate 200 'A', false, false)],
      by decide, by decide, by decide⟩

/-- Witness for `reply_chunking` at limit 1 on a two-character message. -/
theorem reply_chunking_witness :
    (∃ sends, reply ['h', 'i'] replyCtxSample false false 1 = some sends ∧
      (sends.map fun s => s.2.1).flatten = ['h', 'i'] ∧
      ∀ s ∈ sends, s.2.1.length ≤ (1 : Int).toNat) ∧
    (∃ sends, reply (List.replicate 1000 'A') replyCtxSample false false 400 = some sends ∧
      sends.map (fun s => s.2.1.length) = [400, 400, 200] ∧
      (sends.map fun s => s.2.1).flatten = List.replicate 1000 'A') :=
  reply_chunking 1 (by decide) ['h', 'i'] replyCtxSample false false

/-- Claim C6: every send of one `reply` call goes to the single recipient
the call computed: the context's sender when it starts with the
channel-prefix character, otherwise the context's user. -/
theorem reply_recipient (msg : List Char) (ctx : ReplyCtx) (action notice : Bool)
    (l : Int) (hl : 1 ≤ l) :
    ∃ sends, reply msg ctx action notice l = some sends ∧
      (∀ s ∈ sends, s.1 = recipient ctx) ∧
      (pyStartsWith ctx.sender ['#'] = true → recipient ctx = ctx.sender) ∧
      (pyStartsWith ctx.sender ['#'] = false → recipient ctx = ctx.user) := by
  obtain ⟨chunks, hrun, _, _, _⟩ :=
    hlm_spec l hl msg.length msg le_rfl (msg.length + 1) (by omega)
  refine ⟨chunks.map fun c => (recipient ctx, c, action, notice), ?_, ?_, ?_, ?_⟩
  · unfold reply handleLongMessageRun
    rw [hrun]
    rfl
  · intro s hs
    simp only [List.mem_map] at hs
    obtain ⟨c, _, rfl⟩ := hs
    rfl
  · intro h
    simp [recipient, h]
  · intro h
    simp [recipient, h]

/-- Witness for `reply_recipient` on a non-channel sender. -/
theorem reply_recipient_witness :
    ∃ sends, reply ['o', 'k'] { sender := ['n'], user := ['u'] } false false 5 = some sends ∧
      (∀ s ∈ sends, s.1 = recipient { sender := ['n'], user := ['u'] }) ∧
      (pyStartsWith (ReplyCtx.sender { sender := ['n'], user := ['u'] }) ['#'] = true →
        recipient { sender := ['n'], user := ['u'] } = ReplyCtx.sender { sender := ['n'], user := ['u'] }) ∧
      (pyStartsWith (ReplyCtx.sender { sender := ['n'], user := ['u'] }) ['#'] = false →
        recipient { sender := ['n'], user := ['u'] } = ReplyCtx.user { sender := ['n'], user := ['u'] }) :=
  reply_recipient ['o', 'k'] { sender := ['n'], user := ['u'] } false false 5 (by decide)

/-- Claim C7 is false as stated for the empty explicit hook:
`bot.command('')` applied to a function named `myfn` registers hook
`myfn`, not the empty string, because line 135 tests the hook argument's
truthiness before assigning it. -/
theorem command_hook_cex :
    (commandDecorator (some []) [] ['m', 'y', 'f', 'n']).hook = some ['m', 'y', 'f', 'n'] ∧
    some ['m', 'y', 'f', 'n'] ≠ some ([] : List Char) := by
  decide

/-- Claim C7 (amended): with no explicit hook — bare decorator or empty
parentheses — the registered descriptor binds the wrapped function's own
name as the hook and exactly that function; with an explicit non-empty
string hook, the descriptor binds that string; an explicit empty-string
hook is falsy and falls back to the function's own name. -/
theorem command_hook_amended :
    (∀ f : List Char, commandDirect f =
      { hook := some f, funcs := [f], options := [] }) ∧
    (∀ (f : List Char) (kwargs : List (List Char × List Char)),
      commandDecorator none kwargs f = { hook := some f, funcs := [f], options := kwargs }) ∧
    (∀ (s f : List Char) (kwargs : List (List Char × List Char)), s ≠ [] →
      commandDecorator (some s) kwargs f = { hook := some s, funcs := [f], options := kwargs }) ∧
    (∀ (f : List Char) (kwargs : List (List Char × List Char)),
      commandDecorator (some []) kwargs f = { hook := some f, funcs := [f], options := kwargs }) := by
  refine ⟨fun f => rfl, fun f kwargs => rfl, ?_, fun f kwargs => rfl⟩
  intro s f kwargs hs
  simp only [commandDecorator, hookInit]
  rw [if_neg hs]
  rfl

/-- Witness for `command_hook_amended` at a one-letter explicit hook. -/
theorem command_hook_amended_witness :
    commandDecorator (some ['x']) [] ['f'] =
      { hook := some ['x'], funcs := [['f']], options := [] } :=
  command_hook_amended.2.2.1 ['x'] ['f'] [] (by decide)

/-- Claim C9: starting from the initial class state, every construction
`Bot(...)`, whatever the arguments of each call, returns the one object
created by the first call — the identities of any sequence of
constructions are all equal to the first one. -/
theorem bot_singleton (a : List (List Char)) (argss : List (List (List Char))) :
    botNewRuns {} (a :: argss) = List.replicate (argss.length + 1) (botNew {} a).1 := by
  show (botNew {} a).1 :: botNewRuns (botNew {} a).2 argss = _
  rw [botNewRuns_const argss (botNew {} a).2 (botNew {} a).1 rfl, List.replicate_succ]

/-- Claim C10 is false as stated: at the empty message with line limit 1
the helper terminates with one (empty) chunk while ceiling(0/1) = 0, and
at line limit -2 on a 10-character message the recursive argument does
shrink (from length 10 to length 2) although the limit is non-positive and
the message non-empty. -/
theorem hlm_count_cex :
    ((handleLongMessageRun 1 []).map List.length = some 1 ∧
      natCeilDiv (List.length ([] : List Char)) (Int.toNat 1) = 0) ∧
    ((-2 : Int) ≤ 0 ∧ List.replicate 10 'a' ≠ [] ∧
      (pySliceFrom (-2) (List.replicate 10 'a')).length < (List.replicate 10 'a').length) := by
  decide

/-- Claim C10 (amended): for a line limit of at least 1 the recursion
terminates on every message and yields `max 1 (ceil (length / limit))`
chunks — `ceil (length / limit)` for a non-empty message, one empty chunk
for the empty message — whose concatenation is the message; for a
non-positive limit and a non-empty message the recursion never terminates,
the recursive argument eventually ceasing to shrink (immediately so for
limit 0, where the remainder slice is the whole message). -/
theorem hlm_termination (l : Int) (msg : List Char) :
    (1 ≤ l →
      ∃ chunks, handleLongMessageRun l msg = some chunks ∧
        chunks.flatten = msg ∧
        chunks.length = max 1 (natCeilDiv msg.length l.toNat) ∧
        ∀ c ∈ chunks, c.length ≤ l.toNat) ∧
    (l ≤ 0 → msg ≠ [] → ∀ fuel, handle_long_message l fuel msg = none) ∧
    (l = 0 → pySliceFrom l msg = msg) := by
  refine ⟨?_, ?_, ?_⟩
  · intro hl
    obtain ⟨chunks, hrun, hflat, hbound, hcount⟩ :=
      hlm_spec l hl msg.length msg le_rfl (msg.length + 1) (by omega)
    exact ⟨chunks, hrun, hflat, hcount, hbound⟩
  · intro hl hne fuel
    exact hlm_nonpos l hl fuel msg hne
  · intro h0
    subst h0
    simp [pySliceFrom]

/-- Witness for `hlm_termination`: a terminating run at limit 1 and a
diverging run at limit 0. -/
theorem hlm_termination_witness :
    (∃ chunks, handleLongMessageRun 1 ['a', 'b'] = some chunks ∧
      chunks.flatten = ['a', 'b'] ∧
      chunks.length = max 1 (natCeilDiv (['a', 'b'] : List Char).length (Int.toNat 1)) ∧
      ∀ c ∈ chunks, c.length ≤ (1 : Int).toNat) ∧
    handle_long_message 0 5 ['a'] = none :=
  ⟨(hlm_termination 1 ['a', 'b']).1 (by decide),
    (hlm_termination 0 ['a']).2.1 (by decide) (by decide) 5⟩

end Irctk
